import Mathlib

/-!
# A verification development for the mbrain agent

Shallow embedding of the TypeScript agent in `src/agent` (Express server with
a cron-driven keeper decision loop) and its oracle reader.  External
collaborators (the RPC client, the LLM API, the keccak256 primitive from the
`viem` library) are modelled as explicit parameters/environments; module-level
mutable state (`isRunning`, histories, the commitment registry) is modelled by
explicit state passing.  TypeScript `number` timestamps are `ℕ` (milliseconds),
APY/utilization percentages are `ℚ`, and bigint chain values are `ℕ`.
-/

namespace MBrain

/-- The two vaults the agent manages (`'usdc' | 'weth'` in TypeScript). -/
inductive Vault where
  | usdc
  | weth
deriving DecidableEq, Repr

/-! ## Oracle data model (src/agent/src/oracle/index.ts) -/

/-- One entry of `VaultData.adapters` (interface `AdapterData`). -/
structure AdapterData where
  address : String
  allocation : ℚ
  deposited : String
  depositedRaw : ℕ
  apy : ℚ
  active : Bool
deriving DecidableEq, Repr

/-- Interface `VaultData` from the oracle module. -/
structure VaultData where
  address : String
  tvl : String
  tvlRaw : ℕ
  apy : ℚ
  adapters : List AdapterData
  needsRebalance : Bool
deriving DecidableEq, Repr

/-- Interface `LendleData` from the oracle module. -/
structure LendleData where
  usdcSupplyAPY : ℚ
  usdcBorrowAPY : ℚ
  usdcUtilization : ℚ
  wethSupplyAPY : ℚ
  wethBorrowAPY : ℚ
  wethUtilization : ℚ
deriving DecidableEq, Repr

/-- Interface `MethData` from the oracle module. -/
structure MethData where
  stakingAPY : ℚ
  exchangeRate : ℚ
deriving DecidableEq, Repr

/-- The `vaults` field of `ProtocolData`. -/
structure ProtocolVaults where
  usdc : VaultData
  weth : VaultData
deriving DecidableEq, Repr

/-- The `protocols` field of `ProtocolData`. -/
structure ProtocolProtocols where
  lendle : LendleData
  meth : MethData
deriving DecidableEq, Repr

/-- The `recommendations` field of `ProtocolData`. -/
structure ProtocolRecommendations where
  shouldRebalance : Bool
  reason : String
deriving DecidableEq, Repr

/-- Interface `ProtocolData` from the oracle module. -/
structure ProtocolData where
  timestamp : ℕ
  vaults : ProtocolVaults
  protocols : ProtocolProtocols
  recommendations : ProtocolRecommendations
deriving DecidableEq, Repr

/-- Selects a vault's data from the freshly fetched protocol data. -/
def ProtocolData.vaultData (data : ProtocolData) : Vault → VaultData
  | .usdc => data.vaults.usdc
  | .weth => data.vaults.weth

/-- `RAY = 10^27`, the Aave/Lendle fixed-point unit (`const RAY = 10n ** 27n`). -/
def RAY : ℕ := 10 ^ 27

/-- `rayToPercent`: `Number(ray * 10000n / RAY) / 100` — bigint division by
`RAY` after scaling by `10000`, then division by `100`. -/
def rayToPercent (ray : ℕ) : ℚ :=
  ((ray * 10000 / RAY : ℕ) : ℚ) / 100

/-- The ten-component reserve tuple returned by the Lendle data provider's
`getReserveData`; only the components the oracle reads are kept (indices 0–4). -/
structure ReserveData where
  availableLiquidity : ℕ
  totalStableDebt : ℕ
  totalVariableDebt : ℕ
  liquidityRate : ℕ
  variableBorrowRate : ℕ
deriving DecidableEq, Repr

/-- `fetchLendleData`, with the two `getReserveData` chain reads supplied as
arguments.  Mirrors the utilization computation
`total > 0n ? Number((stable + variable) * 10000n / total) / 100 : 0`. -/
def fetchLendleData (usdcReserve wethReserve : ReserveData) : LendleData :=
  let usdcTotal := usdcReserve.availableLiquidity + usdcReserve.totalStableDebt +
    usdcReserve.totalVariableDebt
  let usdcUtilization : ℚ :=
    if 0 < usdcTotal then
      (((usdcReserve.totalStableDebt + usdcReserve.totalVariableDebt) * 10000 / usdcTotal : ℕ) : ℚ) / 100
    else 0
  let wethTotal := wethReserve.availableLiquidity + wethReserve.totalStableDebt +
    wethReserve.totalVariableDebt
  let wethUtilization : ℚ :=
    if 0 < wethTotal then
      (((wethReserve.totalStableDebt + wethReserve.totalVariableDebt) * 10000 / wethTotal : ℕ) : ℚ) / 100
    else 0
  { usdcSupplyAPY := rayToPercent usdcReserve.liquidityRate
    usdcBorrowAPY := rayToPercent usdcReserve.variableBorrowRate
    usdcUtilization := usdcUtilization
    wethSupplyAPY := rayToPercent wethReserve.liquidityRate
    wethBorrowAPY := rayToPercent wethReserve.variableBorrowRate
    wethUtilization := wethUtilization }

/-! ## AI recommendation data model (src/agent/src/ai/index.ts)

`action` is typed `'HOLD' | 'REBALANCE' | 'HARVEST'` in TypeScript, but that
typing is compile-time only: at runtime `parsed.action || 'HOLD'` lets any
string through, and the cron loop compares it against `'REBALANCE'` as a
string.  We therefore model `action` as `String`.  `confidence` is a
`number` used as a `uint8` by `encodePacked`; it is modelled as `ℕ`. -/

/-- Interface `VaultRecommendation`. -/
structure VaultRecommendation where
  currentAPY : ℚ
  suggestedAction : String
  allocationAnalysis : String
deriving DecidableEq, Repr

/-- The `details` field of `AIRecommendation`. -/
structure RecommendationDetails where
  usdcVault : VaultRecommendation
  wethVault : VaultRecommendation
deriving DecidableEq, Repr

/-- Interface `AIRecommendation`. -/
structure AIRecommendation where
  action : String
  confidence : ℕ
  reasoning : String
  details : RecommendationDetails
  marketAnalysis : String
  riskAssessment : String
  timestamp : ℕ
  commitmentHash : Option String
deriving DecidableEq, Repr

/-- One entry of the module-level `apyHistory` array. -/
structure ApyEntry where
  timestamp : ℕ
  usdcApy : ℚ
  wethApy : ℚ
  lendleUtil : ℚ
deriving DecidableEq, Repr

/-- `trackApyHistory`: push the new sample, then drop the oldest entry
(`shift()`) when the array exceeds 100 entries.  `now` stands for
`Date.now()`, and the module-level `apyHistory` array is passed explicitly. -/
def trackApyHistory (data : ProtocolData) (now : ℕ) (hist : List ApyEntry) :
    List ApyEntry :=
  let h := hist ++ [{ timestamp := now
                      usdcApy := data.vaults.usdc.apy
                      wethApy := data.vaults.weth.apy
                      lendleUtil := data.protocols.lendle.usdcUtilization }]
  if 100 < h.length then h.drop 1 else h

/-- `addToHistory`: prepend (`unshift`), then drop the last entry (`pop()`)
when the array exceeds 100 entries. -/
def addToHistory (rec : AIRecommendation) (hist : List AIRecommendation) :
    List AIRecommendation :=
  let h := rec :: hist
  if 100 < h.length then h.dropLast else h

/-! ## Commitment registry (src/agent/src/ai/index.ts)

`keccak256` and `encodePacked` come from the external `viem` library.  The
packed encoding of `['string', 'uint8', 'uint256']` is concrete (UTF-8 bytes
of the string, one byte, 32 big-endian bytes); the hash itself is an abstract
parameter `keccak : List UInt8 → String`. -/

/-- Big-endian byte serialization of `n` into exactly `width` bytes
(the packed encoding of a `uintN`). -/
def beBytes : ℕ → ℕ → List UInt8
  | 0, _ => []
  | width + 1, n => beBytes width (n / 256) ++ [UInt8.ofNat (n % 256)]

/-- `encodePacked(['string', 'uint8', 'uint256'], [action, confidence,
timestamp])`. -/
def encodePackedRec (action : String) (confidence : ℕ) (timestamp : ℕ) :
    List UInt8 :=
  action.toUTF8.toList ++ [UInt8.ofNat confidence] ++ beBytes 32 timestamp

/-- `generateCommitmentHash`: keccak256 of the packed action, confidence and
timestamp of the recommendation. -/
def generateCommitmentHash (keccak : List UInt8 → String)
    (rec : AIRecommendation) : String :=
  keccak (encodePackedRec rec.action rec.confidence rec.timestamp)

/-- The module-level `commitmentRegistry` JS `Map`, modelled as an insertion-
ordered association list.  The optional `blockNumber` of each entry is never
set by the code and is omitted. -/
abbrev CommitmentRegistry : Type := List (String × AIRecommendation)

/-- JS `Map.get`: the value stored at the key, if any (first match in
insertion order; keys are unique by construction). -/
def CommitmentRegistry.get : CommitmentRegistry → String → Option AIRecommendation
  | [], _ => none
  | e :: t, hash => if e.1 == hash then some e.2 else CommitmentRegistry.get t hash

/-- JS `Map.set`: replace the value in place when the key is present,
otherwise append the new binding. -/
def CommitmentRegistry.set (reg : CommitmentRegistry) (hash : String)
    (rec : AIRecommendation) : CommitmentRegistry :=
  if reg.any (fun e => e.1 == hash) then
    reg.map (fun e => if e.1 == hash then (hash, rec) else e)
  else
    reg ++ [(hash, rec)]

/-- `registerCommitment`: compute the hash, set `rec.commitmentHash = hash`
(a mutation, modelled by returning the updated record), store the mutated
recommendation under the hash, and return the hash. -/
def registerCommitment (keccak : List UInt8 → String)
    (rec : AIRecommendation) (reg : CommitmentRegistry) :
    String × AIRecommendation × CommitmentRegistry :=
  let hash := generateCommitmentHash keccak rec
  let rec' := { rec with commitmentHash := some hash }
  (hash, rec', reg.set hash rec')

/-- The result type of `verifyCommitment`. -/
structure VerifyResult where
  valid : Bool
  recommendation : Option AIRecommendation
deriving DecidableEq, Repr

/-- `verifyCommitment`: look the hash up, recompute the hash of the stored
recommendation, and report whether it matches. -/
def verifyCommitment (keccak : List UInt8 → String)
    (reg : CommitmentRegistry) (hash : String) : VerifyResult :=
  match reg.get hash with
  | none => { valid := false, recommendation := none }
  | some rec =>
    { valid := generateCommitmentHash keccak rec == hash
      recommendation := some rec }

/-- A registry obtained by registering the given recommendations in order,
starting from the empty registry. -/
def registerAll (keccak : List UInt8 → String)
    (recs : List AIRecommendation) : CommitmentRegistry :=
  recs.foldl (fun reg rec => (registerCommitment keccak rec reg).2.2) []

/-! ## Keeper data model (src/agent/src/keeper/index.ts) -/

/-- Interface `ExecutionResult`.  Optional fields absent in a given return
statement are `none`. -/
structure ExecutionResult where
  success : Bool
  txHash : Option String
  error : Option String
  gasUsed : Option String
  timestamp : ℕ
deriving DecidableEq, Repr

/-- `addExecutionToHistory`: prepend (`unshift`), then drop the last entry
(`pop()`) when the array exceeds 50 entries. -/
def addExecutionToHistory (result : ExecutionResult)
    (hist : List ExecutionResult) : List ExecutionResult :=
  let h := result :: hist
  if 50 < h.length then h.dropLast else h

/-- The keeper account (`privateKeyToAccount(...)`); only the address is
observable.  `account = null` (keeper never initialized) is `Option.none`;
the source sets `walletClient` and `account` together in `initializeKeeper`,
so a single `Option Account` models both. -/
structure Account where
  address : String
deriving DecidableEq, Repr

/-- Interface `KeeperStatus.isAuthorized`. -/
structure IsAuthorized where
  usdcVault : Bool
  wethVault : Bool
deriving DecidableEq, Repr

/-- Interface `KeeperStatus`. -/
structure KeeperStatus where
  address : String
  balance : String
  isAuthorized : IsAuthorized
deriving DecidableEq, Repr

/-- Selects the authorization flag for a vault. -/
def KeeperStatus.authorizedFor (status : KeeperStatus) : Vault → Bool
  | .usdc => status.isAuthorized.usdcVault
  | .weth => status.isAuthorized.wethVault

/-- viem's `formatEther`: render `wei / 10^18` as a decimal string, with the
fractional part padded to 18 digits and trailing zeros stripped. -/
def formatEther (wei : ℕ) : String :=
  let intPart := wei / 10 ^ 18
  let fracPart := wei % 10 ^ 18
  if fracPart = 0 then toString intPart
  else
    let fracStr := toString fracPart
    let padded := String.mk (List.replicate (18 - fracStr.length) '0') ++ fracStr
    toString intPart ++ "." ++ padded.dropRightWhile (fun c => c == '0')

/-- JS `String.prototype.toLowerCase()` on the ASCII addresses the keeper
compares: lower-case each character. -/
def toLowerCase (s : String) : String :=
  String.mk (s.data.map Char.toLower)

/-- The chain reads `getKeeperStatus` performs (`Promise.all` of the balance
and the `keeper`/`owner` views of both vaults); supplied as an environment. -/
structure StatusReads where
  balance : ℕ
  usdcKeeper : String
  wethKeeper : String
  usdcOwner : String
  wethOwner : String

/-- `getKeeperStatus`: the fixed "Not initialized" status when no account is
set, otherwise authorization by case-insensitive comparison of the keeper
account's address against each vault's `keeper()` and `owner()`. -/
def getKeeperStatus (reads : StatusReads) (account : Option Account) :
    KeeperStatus :=
  match account with
  | none =>
    { address := "Not initialized"
      balance := "0"
      isAuthorized := { usdcVault := false, wethVault := false } }
  | some acct =>
    { address := acct.address
      balance := formatEther reads.balance
      isAuthorized :=
        { usdcVault := toLowerCase reads.usdcKeeper == toLowerCase acct.address ||
            toLowerCase reads.usdcOwner == toLowerCase acct.address
          wethVault := toLowerCase reads.wethKeeper == toLowerCase acct.address ||
            toLowerCase reads.wethOwner == toLowerCase acct.address } }

/-- A transaction receipt (`waitForTransactionReceipt`): viem reports
`status : 'success' | 'reverted'` and the gas used. -/
structure Receipt where
  status : String
  gasUsed : ℕ
deriving DecidableEq, Repr

/-- The fallible chain interactions of the keeper executor.  Each `Except`
error is the thrown error's `message` (the empty string standing for a falsy
message, as in `error.message || 'Unknown error'`). -/
structure ChainEnv where
  readNeedsRebalance : Vault → Except String Bool
  simulateRebalance : Vault → Except String Unit
  writeRebalance : Vault → Except String String
  simulateHarvest : Vault → Except String Unit
  writeHarvest : Vault → Except String String
  waitForReceipt : String → Except String Receipt

/-- The observable chain interactions an execution performed, in order. -/
inductive ChainCall where
  | readNeeds (v : Vault)
  | simulate (v : Vault) (fn : String)
  | submit (v : Vault) (fn : String)
  | wait (txHash : String)
deriving DecidableEq, Repr

/-- The `catch` branch shared by `executeRebalance` and `executeHarvest`:
`{ success: false, error: error.message || 'Unknown error', timestamp }`. -/
def caughtResult (msg : String) (now : ℕ) : ExecutionResult :=
  { success := false
    txHash := none
    error := some (if msg = "" then "Unknown error" else msg)
    gasUsed := none
    timestamp := now }

/-- `executeRebalance`, instrumented with the list of chain interactions it
performed.  `now` stands for `Date.now()`. -/
def executeRebalance (env : ChainEnv) (account : Option Account) (v : Vault)
    (now : ℕ) : ExecutionResult × List ChainCall :=
  match account with
  | none =>
    ({ success := false, txHash := none, error := some "Keeper not initialized"
       gasUsed := none, timestamp := now }, [])
  | some _ =>
    match env.readNeedsRebalance v with
    | .error e => (caughtResult e now, [.readNeeds v])
    | .ok false =>
      ({ success := false, txHash := none, error := some "Rebalance not needed"
         gasUsed := none, timestamp := now }, [.readNeeds v])
    | .ok true =>
      match env.simulateRebalance v with
      | .error e => (caughtResult e now, [.readNeeds v, .simulate v "rebalance"])
      | .ok _ =>
        match env.writeRebalance v with
        | .error e =>
          (caughtResult e now,
            [.readNeeds v, .simulate v "rebalance", .submit v "rebalance"])
        | .ok hash =>
          match env.waitForReceipt hash with
          | .error e =>
            (caughtResult e now,
              [.readNeeds v, .simulate v "rebalance", .submit v "rebalance",
                .wait hash])
          | .ok receipt =>
            ({ success := receipt.status == "success", txHash := some hash
               error := none, gasUsed := some (toString receipt.gasUsed)
               timestamp := now },
              [.readNeeds v, .simulate v "rebalance", .submit v "rebalance",
                .wait hash])

/-- `executeHarvest`, instrumented with the list of chain interactions it
performed.  Unlike `executeRebalance` there is no `needsRebalance` guard. -/
def executeHarvest (env : ChainEnv) (account : Option Account) (v : Vault)
    (now : ℕ) : ExecutionResult × List ChainCall :=
  match account with
  | none =>
    ({ success := false, txHash := none, error := some "Keeper not initialized"
       gasUsed := none, timestamp := now }, [])
  | some _ =>
    match env.simulateHarvest v with
    | .error e => (caughtResult e now, [.simulate v "harvest"])
    | .ok _ =>
      match env.writeHarvest v with
      | .error e =>
        (caughtResult e now, [.simulate v "harvest", .submit v "harvest"])
      | .ok hash =>
        match env.waitForReceipt hash with
        | .error e =>
          (caughtResult e now,
            [.simulate v "harvest", .submit v "harvest", .wait hash])
        | .ok receipt =>
          ({ success := receipt.status == "success", txHash := some hash
             error := none, gasUsed := some (toString receipt.gasUsed)
             timestamp := now },
            [.simulate v "harvest", .submit v "harvest", .wait hash])

/-! ## AI client (src/agent/src/ai/index.ts) -/

/-- JS `str || default`: the default replaces a missing (`undefined`) or
empty (falsy) string. -/
def strOr (v : Option String) (d : String) : String :=
  match v with
  | none => d
  | some s => if s = "" then d else s

/-- JS `num || default`: the default replaces a missing (`undefined`) or
zero (falsy) number. -/
def numOr (v : Option ℕ) (d : ℕ) : ℕ :=
  match v with
  | none => d
  | some n => if n = 0 then d else n

/-- JS `Number.prototype.toFixed(digits)` on a decimal value: round to
`digits` fractional digits (half away from zero) and render with exactly
`digits` fractional digits. -/
def toFixed (digits : ℕ) (q : ℚ) : String :=
  let sign := if q < 0 then "-" else ""
  let scaled : ℤ := ⌊|q| * (10 : ℚ) ^ digits + 1 / 2⌋
  let intPart := scaled.toNat / 10 ^ digits
  let fracPart := scaled.toNat % 10 ^ digits
  if digits = 0 then sign ++ toString intPart
  else
    let fracStr := toString fracPart
    sign ++ toString intPart ++ "." ++
      String.mk (List.replicate (digits - fracStr.length) '0') ++ fracStr

/-- JS template-literal rendering of a number: an integer prints without a
fractional part, otherwise the decimal expansion with trailing zeros
stripped (shown to 6 digits, enough for the values the agent prints). -/
def jsNumToString (q : ℚ) : String :=
  if q.den = 1 then toString q.num
  else (toFixed 6 q).dropRightWhile (fun c => c == '0')

/-- `data.vaults.usdc.adapters[0]?.allocation || 100`: the first adapter's
allocation, with `100` replacing a missing first adapter or a falsy (zero)
allocation. -/
def firstAllocationOr100 (adapters : List AdapterData) : ℚ :=
  match adapters.head? with
  | none => 100
  | some a => if a.allocation = 0 then 100 else a.allocation

/-- `getFallbackRecommendation`: the static rule-based recommendation used
when the LLM path fails.  `now` stands for `Date.now()`. -/
def getFallbackRecommendation (now : ℕ) (data : ProtocolData) :
    AIRecommendation :=
  let needsRebalance := data.vaults.usdc.needsRebalance ||
    data.vaults.weth.needsRebalance
  { action := if needsRebalance then "REBALANCE" else "HOLD"
    confidence := 70
    reasoning :=
      if needsRebalance then
        "Vault allocation has drifted from target. Rebalance recommended to optimize yield."
      else
        "Current allocation is within acceptable range. No action needed."
    details :=
      { usdcVault :=
          { currentAPY := data.vaults.usdc.apy
            suggestedAction :=
              if data.vaults.usdc.needsRebalance then "Rebalance" else "Hold"
            allocationAnalysis :=
              "Single adapter strategy at " ++
                jsNumToString (firstAllocationOr100 data.vaults.usdc.adapters) ++
                "% allocation." }
        wethVault :=
          { currentAPY := data.vaults.weth.apy
            suggestedAction :=
              if data.vaults.weth.needsRebalance then "Rebalance" else "Hold"
            allocationAnalysis :=
              "Multi-strategy with " ++
                toString data.vaults.weth.adapters.length ++ " adapters." } }
    marketAnalysis :=
      "Lendle USDC utilization at " ++
        toFixed 1 data.protocols.lendle.usdcUtilization ++ "%. " ++
        (if 80 < data.protocols.lendle.usdcUtilization then
          "High utilization may indicate increased demand."
        else "Healthy utilization levels.")
    riskAssessment :=
      "Standard DeFi risks apply: smart contract risk, oracle risk, liquidity risk."
    timestamp := now
    commitmentHash := none }

/-- The outcome of the `anthropic.messages.create` call: the call threw, or
it returned whose first content block has the given type and text.  (An empty
`content` array makes `content.type` throw, which the `catch` also turns into
the fallback; it is covered by `threw`.) -/
inductive LLMResult where
  | threw
  | response (blockType : String) (text : String)
deriving DecidableEq, Repr

/-- The fields the agent reads off the JSON object parsed from the LLM's
text with `JSON.parse`; a field absent from the object is `none`. -/
structure ParsedRec where
  action : Option String
  confidence : Option ℕ
  reasoning : Option String
  usdcSuggestedAction : Option String
  usdcAllocationAnalysis : Option String
  wethSuggestedAction : Option String
  wethAllocationAnalysis : Option String
  marketAnalysis : Option String
  riskAssessment : Option String
deriving DecidableEq, Repr

/-- `getAIRecommendation`.  The prompt construction (and the `getApyTrend`
call feeding it) only parameterizes the external LLM call, which is abstracted
into the `llm` outcome; `parse` abstracts `JSON.parse` on the response text
(`none` when parsing throws, and also when the parsed value is `null`, whose
property access throws — both land in the same `catch`).  The function tracks
the APY history, then either builds the recommendation from the parsed JSON
and registers its commitment hash, or returns the rule-based fallback (which
registers nothing).  Returns the recommendation together with the updated
APY history and commitment registry. -/
def getAIRecommendation (llm : LLMResult) (parse : String → Option ParsedRec)
    (keccak : List UInt8 → String) (now : ℕ) (data : ProtocolData)
    (hist : List ApyEntry) (reg : CommitmentRegistry) :
    AIRecommendation × List ApyEntry × CommitmentRegistry :=
  let hist' := trackApyHistory data now hist
  match llm with
  | .threw => (getFallbackRecommendation now data, hist', reg)
  | .response blockType text =>
    if blockType ≠ "text" then (getFallbackRecommendation now data, hist', reg)
    else
      match parse text with
      | none => (getFallbackRecommendation now data, hist', reg)
      | some parsed =>
        let recommendation : AIRecommendation :=
          { action := strOr parsed.action "HOLD"
            confidence := numOr parsed.confidence 50
            reasoning := strOr parsed.reasoning "Unable to generate recommendation"
            details :=
              { usdcVault :=
                  { currentAPY := data.vaults.usdc.apy
                    suggestedAction := strOr parsed.usdcSuggestedAction "Hold"
                    allocationAnalysis := strOr parsed.usdcAllocationAnalysis "N/A" }
                wethVault :=
                  { currentAPY := data.vaults.weth.apy
                    suggestedAction := strOr parsed.wethSuggestedAction "Hold"
                    allocationAnalysis := strOr parsed.wethAllocationAnalysis "N/A" } }
            marketAnalysis := strOr parsed.marketAnalysis "N/A"
            riskAssessment := strOr parsed.riskAssessment "N/A"
            timestamp := now
            commitmentHash := none }
        let registered := registerCommitment keccak recommendation reg
        (registered.2.1, hist', registered.2.2)

/-! ## HTTP routes (src/agent/src/index.ts)

Only the two keeper POST routes are claim-relevant.  Express responds with
status 200 by default on `res.json(...)`; the routes' `catch` branch is
unreachable because `executeRebalance`/`executeHarvest` return for every
input (they catch internally). -/

/-- A route's JSON response body. -/
inductive RouteBody where
  | jsonError (msg : String)
  | jsonResult (result : ExecutionResult)
deriving DecidableEq, Repr

/-- An HTTP response: status code and JSON body. -/
structure RouteResponse where
  status : ℕ
  body : RouteBody
deriving DecidableEq, Repr

/-- The `POST /api/keeper/rebalance/:vault` handler: reject any path
parameter other than `'usdc'`/`'weth'` with 400 before touching the keeper,
otherwise execute and append the result to the execution history. -/
def postKeeperRebalance (env : ChainEnv) (account : Option Account) (now : ℕ)
    (vaultParam : String) (hist : List ExecutionResult) :
    RouteResponse × List ExecutionResult :=
  if vaultParam ≠ "usdc" ∧ vaultParam ≠ "weth" then
    ({ status := 400, body := .jsonError "Invalid vault" }, hist)
  else
    let v := if vaultParam = "usdc" then Vault.usdc else Vault.weth
    let result := (executeRebalance env account v now).1
    ({ status := 200, body := .jsonResult result },
      addExecutionToHistory result hist)

/-- The `POST /api/keeper/harvest/:vault` handler. -/
def postKeeperHarvest (env : ChainEnv) (account : Option Account) (now : ℕ)
    (vaultParam : String) (hist : List ExecutionResult) :
    RouteResponse × List ExecutionResult :=
  if vaultParam ≠ "usdc" ∧ vaultParam ≠ "weth" then
    ({ status := 400, body := .jsonError "Invalid vault" }, hist)
  else
    let v := if vaultParam = "usdc" then Vault.usdc else Vault.weth
    let result := (executeHarvest env account v now).1
    ({ status := 200, body := .jsonResult result },
      addExecutionToHistory result hist)

/-! ## The cron decision loop (src/agent/src/index.ts, `analysisCron`) -/

/-- The collaborators one cron tick calls, with their outcomes for this tick.
`fetchProtocolData` and `getKeeperStatus` hit the network and may throw;
`getAIRecommendation` is modelled fallibly so the guarantee covers every
throw point; `executeRebalance` returns an `ExecutionResult` for every input
(it catches internally, see the keeper executor above). -/
structure CronEnv where
  fetchProtocolData : Except String ProtocolData
  getAIRecommendation : ProtocolData → Except String AIRecommendation
  getKeeperStatus : Except String KeeperStatus
  executeRebalance : Vault → ExecutionResult

/-- The module-level mutable state of src/agent/src/index.ts together with
the history arrays of the modules it calls. -/
structure AgentState where
  isRunning : Bool
  latestData : Option ProtocolData
  latestRecommendation : Option AIRecommendation
  recommendationHistory : List AIRecommendation
  executionHistory : List ExecutionResult
deriving Repr

/-- The `try` block of the cron tick.  Returns the updated state and the
list of vaults for which a rebalance transaction was submitted
(`executeRebalance` called).  An error at any step abandons the rest of the
block (the `catch` only logs). -/
def analysisTryBlock (env : CronEnv) (s : AgentState) :
    AgentState × List Vault :=
  match env.fetchProtocolData with
  | .error _ => (s, [])
  | .ok data =>
    let s := { s with latestData := some data }
    match env.getAIRecommendation data with
    | .error _ => (s, [])
    | .ok rec =>
      let s := { s with
        latestRecommendation := some rec
        recommendationHistory := addToHistory rec s.recommendationHistory }
      if rec.action = "REBALANCE" ∧ 80 ≤ rec.confidence then
        match env.getKeeperStatus with
        | .error _ => (s, [])
        | .ok status =>
          let step1 :=
            if data.vaults.usdc.needsRebalance && status.isAuthorized.usdcVault then
              let h := addExecutionToHistory (env.executeRebalance Vault.usdc) s.executionHistory
              ({ s with executionHistory := h }, [Vault.usdc])
            else (s, [])
          let step2 :=
            if data.vaults.weth.needsRebalance && status.isAuthorized.wethVault then
              let h := addExecutionToHistory (env.executeRebalance Vault.weth) step1.1.executionHistory
              ({ step1.1 with executionHistory := h }, [Vault.weth])
            else (step1.1, [])
          (step2.1, step1.2 ++ step2.2)
      else (s, [])

/-- One tick of `analysisCron`: return immediately when `isRunning` is set,
otherwise set it, run the `try` block, and clear it in the `finally`. -/
def analysisCronTick (env : CronEnv) (s : AgentState) :
    AgentState × List Vault :=
  if s.isRunning then (s, [])
  else
    let afterTry := analysisTryBlock env { s with isRunning := true }
    ({ afterTry.1 with isRunning := false }, afterTry.2)

/-! ## Concrete fixtures (used by the witness theorems) -/

/-- A concrete adapter. -/
def adapterEx : AdapterData :=
  { address := "0xadapter", allocation := 100, deposited := "1", depositedRaw := 1,
    apy := 5, active := true }

/-- A concrete vault datum with the given drift flag. -/
def vaultDataEx (needs : Bool) : VaultData :=
  { address := "0xvault", tvl := "100", tvlRaw := 100, apy := 5,
    adapters := [adapterEx], needsRebalance := needs }

/-- A concrete Lendle datum. -/
def lendleEx : LendleData :=
  { usdcSupplyAPY := 3, usdcBorrowAPY := 5, usdcUtilization := 50,
    wethSupplyAPY := 2, wethBorrowAPY := 4, wethUtilization := 40 }

/-- Concrete protocol data where the usdc vault needs a rebalance and the
weth vault does not. -/
def protocolDataEx : ProtocolData :=
  { timestamp := 1000
    vaults := { usdc := vaultDataEx true, weth := vaultDataEx false }
    protocols := { lendle := lendleEx, meth := { stakingAPY := 7/2, exchangeRate := 51/50 } }
    recommendations := { shouldRebalance := true, reason := "drift" } }

/-- Concrete recommendation details. -/
def recDetailsEx : RecommendationDetails :=
  { usdcVault := { currentAPY := 5, suggestedAction := "Rebalance", allocationAnalysis := "a" }
    wethVault := { currentAPY := 5, suggestedAction := "Hold", allocationAnalysis := "b" } }

/-- A concrete high-confidence REBALANCE recommendation. -/
def recEx : AIRecommendation :=
  { action := "REBALANCE", confidence := 85, reasoning := "drift detected",
    details := recDetailsEx, marketAnalysis := "m", riskAssessment := "r",
    timestamp := 1000, commitmentHash := none }

/-- A concrete successful execution result. -/
def execResultEx : ExecutionResult :=
  { success := true, txHash := some "0xhash", error := none, gasUsed := some "21000",
    timestamp := 1000 }

/-- A concrete keeper status, authorized on usdc only. -/
def statusEx : KeeperStatus :=
  { address := "0xkeeper", balance := "1",
    isAuthorized := { usdcVault := true, wethVault := false } }

/-- A concrete cron environment where every collaborator succeeds. -/
def cronEnvEx : CronEnv :=
  { fetchProtocolData := .ok protocolDataEx
    getAIRecommendation := fun _ => .ok recEx
    getKeeperStatus := .ok statusEx
    executeRebalance := fun _ => execResultEx }

/-- The agent's initial module-level state. -/
def agentState0 : AgentState :=
  { isRunning := false, latestData := none, latestRecommendation := none,
    recommendationHistory := [], executionHistory := [] }

/-! ## Theorems -/

/-- Natural-number division is the floor of the exact rational quotient. -/
theorem natCast_div_eq_floor (a b : ℕ) :
    ((a / b : ℕ) : ℚ) = (⌊(a : ℚ) / (b : ℚ)⌋₊ : ℚ) := by
  rw [Nat.floor_div_eq_div]

/-- **C7.** The oracle's fixed-point conversions are exact integer
arithmetic: `rayToPercent r` is the integer quotient `r * 10000 / 10^27`
divided by `100` (equivalently, the floor of the exact rational quotient,
i.e. the ray rate as a percentage truncated to two decimals); each market's
utilization is `(stableDebt + variableDebt) * 10000` over the total
liquidity by integer (floor) division, then divided by `100`; and it is `0`
whenever the total is `0`, so the division is never by zero. -/
theorem oracle_fixed_point_conversions :
    (∀ r : ℕ, rayToPercent r = (⌊(r : ℚ) * 10000 / 10 ^ 27⌋₊ : ℚ) / 100) ∧
    ∀ u w : ReserveData,
      (u.availableLiquidity + u.totalStableDebt + u.totalVariableDebt = 0 →
        (fetchLendleData u w).usdcUtilization = 0) ∧
      (u.availableLiquidity + u.totalStableDebt + u.totalVariableDebt ≠ 0 →
        (fetchLendleData u w).usdcUtilization =
          (⌊((u.totalStableDebt : ℚ) + u.totalVariableDebt) * 10000 /
            ((u.availableLiquidity : ℚ) + u.totalStableDebt + u.totalVariableDebt)⌋₊ : ℚ) / 100) ∧
      (w.availableLiquidity + w.totalStableDebt + w.totalVariableDebt = 0 →
        (fetchLendleData u w).wethUtilization = 0) ∧
      (w.availableLiquidity + w.totalStableDebt + w.totalVariableDebt ≠ 0 →
        (fetchLendleData u w).wethUtilization =
          (⌊((w.totalStableDebt : ℚ) + w.totalVariableDebt) * 10000 /
            ((w.availableLiquidity : ℚ) + w.totalStableDebt + w.totalVariableDebt)⌋₊ : ℚ) / 100) := by
  constructor
  · intro r
    unfold rayToPercent RAY
    rw [natCast_div_eq_floor]
    congr 2
    push_cast
    ring_nf
  · intro u w
    refine ⟨fun h0 => ?_, fun hpos => ?_, fun h0 => ?_, fun hpos => ?_⟩ <;>
      unfold fetchLendleData <;> dsimp only
    · rw [if_neg (by omega)]
    · rw [if_pos (by omega), natCast_div_eq_floor]
      congr 2
      push_cast
      ring_nf
    · rw [if_neg (by omega)]
    · rw [if_pos (by omega), natCast_div_eq_floor]
      congr 2
      push_cast
      ring_nf

/-- Witness for C7: both utilization branches and the ray conversion
evaluated at concrete reserves. -/
theorem oracle_fixed_point_conversions_witness :
    rayToPercent (3 * 10 ^ 25) = (⌊((3 * 10 ^ 25 : ℕ) : ℚ) * 10000 / 10 ^ 27⌋₊ : ℚ) / 100 ∧
    (fetchLendleData ⟨0, 0, 0, 0, 0⟩ ⟨5, 3, 2, 0, 0⟩).usdcUtilization = 0 ∧
    (fetchLendleData ⟨0, 0, 0, 0, 0⟩ ⟨5, 3, 2, 0, 0⟩).wethUtilization =
      (⌊((3 : ℚ) + 2) * 10000 / ((5 : ℚ) + 3 + 2)⌋₊ : ℚ) / 100 := by
  have h := oracle_fixed_point_conversions
  have h2 := h.2 ⟨0, 0, 0, 0, 0⟩ ⟨5, 3, 2, 0, 0⟩
  exact ⟨h.1 (3 * 10 ^ 25), h2.1 (by decide), h2.2.2.2 (by decide)⟩

/-- One `addToHistory` step keeps the recommendation history within 100
entries. -/
theorem addToHistory_length_le (r : AIRecommendation)
    (h : List AIRecommendation) (hle : h.length ≤ 100) :
    (addToHistory r h).length ≤ 100 := by
  unfold addToHistory
  dsimp only
  split
  · simpa using hle
  · simp only [not_lt, List.length_cons] at *
    omega

/-- One `addExecutionToHistory` step keeps the execution history within 50
entries. -/
theorem addExecutionToHistory_length_le (r : ExecutionResult)
    (h : List ExecutionResult) (hle : h.length ≤ 50) :
    (addExecutionToHistory r h).length ≤ 50 := by
  unfold addExecutionToHistory
  dsimp only
  split
  · simpa using hle
  · simp only [not_lt, List.length_cons] at *
    omega

/-- One `trackApyHistory` step keeps the APY history within 100 entries. -/
theorem trackApyHistory_length_le (d : ProtocolData) (now : ℕ)
    (h : List ApyEntry) (hle : h.length ≤ 100) :
    (trackApyHistory d now h).length ≤ 100 := by
  unfold trackApyHistory
  dsimp only
  split
  · rename_i hlen
    simp only [List.length_append, List.length_cons, List.length_nil] at hlen
    simp only [List.length_drop, List.length_append, List.length_cons,
      List.length_nil]
    omega
  · rename_i hlen
    simp only [not_lt, List.length_append, List.length_cons, List.length_nil] at hlen
    simp only [List.length_append, List.length_cons, List.length_nil]
    omega

/-- Folding `addToHistory` preserves the 100-entry bound. -/
theorem foldl_addToHistory_length_le (recs : List AIRecommendation) :
    ∀ h : List AIRecommendation, h.length ≤ 100 →
      (recs.foldl (fun acc r => addToHistory r acc) h).length ≤ 100 := by
  induction recs with
  | nil => intro h hle; simpa using hle
  | cons r t ih =>
    intro h hle
    exact ih (addToHistory r h) (addToHistory_length_le r h hle)

/-- Folding `addExecutionToHistory` preserves the 50-entry bound. -/
theorem foldl_addExecutionToHistory_length_le (results : List ExecutionResult) :
    ∀ h : List ExecutionResult, h.length ≤ 50 →
      (results.foldl (fun acc r => addExecutionToHistory r acc) h).length ≤ 50 := by
  induction results with
  | nil => intro h hle; simpa using hle
  | cons r t ih =>
    intro h hle
    exact ih (addExecutionToHistory r h) (addExecutionToHistory_length_le r h hle)

/-- Folding `trackApyHistory` preserves the 100-entry bound. -/
theorem foldl_trackApyHistory_length_le (samples : List (ProtocolData × ℕ)) :
    ∀ h : List ApyEntry, h.length ≤ 100 →
      (samples.foldl (fun acc dn => trackApyHistory dn.1 dn.2 acc) h).length ≤ 100 := by
  induction samples with
  | nil => intro h hle; simpa using hle
  | cons dn t ih =>
    intro h hle
    exact ih (trackApyHistory dn.1 dn.2 h) (trackApyHistory_length_le dn.1 dn.2 h hle)

/-- **C8.** The in-memory histories are bounded and ordered: after any
sequence of insertions from the empty state, the recommendation history
holds at most 100 entries and the execution history at most 50, each with
the most recently added entry first (within the bound the new list is
`(new entry :: old).take cap`, i.e. a prepend that drops the oldest entry
when full); the APY history holds at most 100 entries with the most recent
entry last, appending and dropping the oldest entry when full. -/
theorem histories_bounded_and_ordered :
    (∀ recs : List AIRecommendation,
      (recs.foldl (fun acc r => addToHistory r acc) []).length ≤ 100) ∧
    (∀ (r : AIRecommendation) (h : List AIRecommendation),
      (addToHistory r h).head? = some r) ∧
    (∀ (r : AIRecommendation) (h : List AIRecommendation), h.length ≤ 100 →
      addToHistory r h = (r :: h).take 100) ∧
    (∀ results : List ExecutionResult,
      (results.foldl (fun acc r => addExecutionToHistory r acc) []).length ≤ 50) ∧
    (∀ (r : ExecutionResult) (h : List ExecutionResult),
      (addExecutionToHistory r h).head? = some r) ∧
    (∀ (r : ExecutionResult) (h : List ExecutionResult), h.length ≤ 50 →
      addExecutionToHistory r h = (r :: h).take 50) ∧
    (∀ samples : List (ProtocolData × ℕ),
      (samples.foldl (fun acc dn => trackApyHistory dn.1 dn.2 acc) []).length ≤ 100) ∧
    (∀ (d : ProtocolData) (now : ℕ) (h : List ApyEntry),
      (trackApyHistory d now h).getLast? =
        some { timestamp := now, usdcApy := d.vaults.usdc.apy,
               wethApy := d.vaults.weth.apy,
               lendleUtil := d.protocols.lendle.usdcUtilization }) ∧
    (∀ (d : ProtocolData) (now : ℕ) (h : List ApyEntry), h.length ≤ 100 →
      trackApyHistory d now h =
        (h.drop (h.length + 1 - 100)) ++
          [{ timestamp := now, usdcApy := d.vaults.usdc.apy,
             wethApy := d.vaults.weth.apy,
             lendleUtil := d.protocols.lendle.usdcUtilization }]) := by
  refine ⟨fun recs => foldl_addToHistory_length_le recs [] (by simp),
    fun r h => ?_, fun r h hle => ?_,
    fun results => foldl_addExecutionToHistory_length_le results [] (by simp),
    fun r h => ?_, fun r h hle => ?_,
    fun samples => foldl_trackApyHistory_length_le samples [] (by simp),
    fun d now h => ?_, fun d now h hle => ?_⟩
  · unfold addToHistory
    dsimp only
    cases h with
    | nil => simp
    | cons a t => split <;> simp [List.dropLast]
  · unfold addToHistory
    dsimp only
    split
    · rename_i hlen
      simp only [List.length_cons] at hlen
      rw [List.dropLast_eq_take]
      congr 1
      simp
      omega
    · rename_i hlen
      simp only [List.length_cons, not_lt] at hlen
      rw [List.take_of_length_le]
      simpa using hlen
  · unfold addExecutionToHistory
    dsimp only
    cases h with
    | nil => simp
    | cons a t => split <;> simp [List.dropLast]
  · unfold addExecutionToHistory
    dsimp only
    split
    · rename_i hlen
      simp only [List.length_cons] at hlen
      rw [List.dropLast_eq_take]
      congr 1
      simp
      omega
    · rename_i hlen
      simp only [List.length_cons, not_lt] at hlen
      rw [List.take_of_length_le]
      simpa using hlen
  · unfold trackApyHistory
    dsimp only
    split
    · rename_i hlen
      rcases h with _ | ⟨a, t⟩
      · simp at hlen
      · simp [List.getLast?_append]
    · simp [List.getLast?_append]
  · unfold trackApyHistory
    dsimp only
    split
    · rename_i hlen
      simp only [List.length_append, List.length_cons, List.length_nil] at hlen
      have h100 : h.length = 100 := by omega
      rw [List.drop_append_of_le_length (by omega)]
      congr 2
      omega
    · rename_i hlen
      simp only [List.length_append, List.length_cons, List.length_nil, not_lt] at hlen
      rw [show h.length + 1 - 100 = 0 by omega]
      simp

/-- Witness for C8: the history operations evaluated at concrete inputs,
discharging the length-bound hypotheses. -/
theorem histories_bounded_and_ordered_witness :
    addToHistory recEx [] = [recEx] ∧
    addExecutionToHistory execResultEx [] = [execResultEx] ∧
    trackApyHistory protocolDataEx 5 [] =
      [{ timestamp := 5, usdcApy := protocolDataEx.vaults.usdc.apy,
         wethApy := protocolDataEx.vaults.weth.apy,
         lendleUtil := protocolDataEx.protocols.lendle.usdcUtilization }] := by
  have h := histories_bounded_and_ordered
  refine ⟨?_, ?_, ?_⟩
  · rw [h.2.2.1 recEx [] (by simp)]
    simp
  · rw [h.2.2.2.2.2.1 execResultEx [] (by simp)]
    simp
  · rw [h.2.2.2.2.2.2.2.2 protocolDataEx 5 [] (by simp)]
    simp

/-- `Map.get` distributes over list append, preferring the left part. -/
theorem CommitmentRegistry.get_append (l m : CommitmentRegistry) (k : String) :
    CommitmentRegistry.get (l ++ m) k =
      (CommitmentRegistry.get l k).or (CommitmentRegistry.get m k) := by
  induction l with
  | nil => simp [CommitmentRegistry.get]
  | cons e t ih =>
    by_cases he : (e.1 == k) = true
    · simp [CommitmentRegistry.get, he]
    · simp [CommitmentRegistry.get, he, ih]

/-- A key nothing in the registry matches looks up to `none`. -/
theorem CommitmentRegistry.get_eq_none (k : String) :
    ∀ l : CommitmentRegistry, l.any (fun e => e.1 == k) = false →
      CommitmentRegistry.get l k = none := by
  intro l
  induction l with
  | nil => intro _; rfl
  | cons e t ih =>
    intro hany
    rw [List.any_cons, Bool.or_eq_false_iff] at hany
    simp [CommitmentRegistry.get, hany.1, ih hany.2]

/-- The in-place update at an existing key makes that key look up to the new
value. -/
theorem CommitmentRegistry.get_map_set_self (k : String) (v : AIRecommendation) :
    ∀ l : CommitmentRegistry, l.any (fun e => e.1 == k) = true →
      CommitmentRegistry.get (l.map (fun e => if e.1 == k then (k, v) else e)) k =
        some v := by
  intro l
  induction l with
  | nil => intro h; simp at h
  | cons e t ih =>
    intro hany
    by_cases he : (e.1 == k) = true
    · simp [CommitmentRegistry.get, he]
    · have hany' : t.any (fun e => e.1 == k) = true := by
        rw [List.any_cons] at hany
        simpa [he] using hany
      simp only [List.map_cons]
      have hfe : (if e.1 == k then (k, v) else e) = e := by simp [he]
      rw [hfe]
      simp only [CommitmentRegistry.get]
      rw [if_neg he]
      exact ih hany'

/-- The in-place update at key `k` leaves lookups at any other key
unchanged. -/
theorem CommitmentRegistry.get_map_set_ne (k k' : String)
    (v : AIRecommendation) (hne : k ≠ k') :
    ∀ l : CommitmentRegistry,
      CommitmentRegistry.get (l.map (fun e => if e.1 == k then (k, v) else e)) k' =
        CommitmentRegistry.get l k' := by
  intro l
  induction l with
  | nil => rfl
  | cons e t ih =>
    by_cases he : (e.1 == k) = true
    · have he1 : e.1 = k := by simpa using he
      have hk : (k == k') = false := by simpa using hne
      have he2 : (e.1 == k') = false := by rw [he1]; exact hk
      simp only [List.map_cons]
      have hfe : (if e.1 == k then (k, v) else e) = (k, v) := by simp [he]
      rw [hfe]
      simp only [CommitmentRegistry.get]
      rw [if_neg (by simp [hk]), if_neg (by simp [he2])]
      exact ih
    · simp only [List.map_cons]
      have hfe : (if e.1 == k then (k, v) else e) = e := by simp [he]
      rw [hfe]
      simp only [CommitmentRegistry.get]
      by_cases he2 : (e.1 == k') = true
      · rw [if_pos he2, if_pos he2]
      · rw [if_neg he2, if_neg he2]
        exact ih

/-- `Map.set` then `Map.get` at the same key returns the stored value. -/
theorem CommitmentRegistry.get_set_self (reg : CommitmentRegistry)
    (k : String) (v : AIRecommendation) :
    CommitmentRegistry.get (reg.set k v) k = some v := by
  unfold CommitmentRegistry.set
  by_cases hany : reg.any (fun e => e.1 == k) = true
  · rw [if_pos hany]
    exact CommitmentRegistry.get_map_set_self k v reg hany
  · rw [if_neg hany, CommitmentRegistry.get_append,
      CommitmentRegistry.get_eq_none k reg (Bool.not_eq_true _ ▸ hany)]
    simp [CommitmentRegistry.get]

/-- `Map.set` leaves lookups at other keys unchanged. -/
theorem CommitmentRegistry.get_set_ne (reg : CommitmentRegistry)
    (k k' : String) (v : AIRecommendation) (hne : k ≠ k') :
    CommitmentRegistry.get (reg.set k v) k' = CommitmentRegistry.get reg k' := by
  unfold CommitmentRegistry.set
  by_cases hany : reg.any (fun e => e.1 == k) = true
  · rw [if_pos hany]
    exact CommitmentRegistry.get_map_set_ne k k' v hne reg
  · rw [if_neg hany, CommitmentRegistry.get_append]
    have h1 : CommitmentRegistry.get [(k, v)] k' = none := by
      simp [CommitmentRegistry.get, hne]
    rw [h1]
    cases CommitmentRegistry.get reg k' <;> rfl

/-- Registering a sequence of recommendations never creates a key outside
the registered hashes. -/
theorem registerAll_get_none (keccak : List UInt8 → String)
    (recs : List AIRecommendation) :
    ∀ reg : CommitmentRegistry, reg.get h = none →
      h ∉ recs.map (generateCommitmentHash keccak) →
      (recs.foldl (fun rg rc => (registerCommitment keccak rc rg).2.2) reg).get h = none := by
  induction recs with
  | nil => intro reg hget _; simpa using hget
  | cons rc t ih =>
    intro reg hget hmem
    simp only [List.map_cons, List.mem_cons, not_or] at hmem
    simp only [List.foldl_cons]
    refine ih _ ?_ hmem.2
    unfold registerCommitment
    dsimp only
    rw [CommitmentRegistry.get_set_ne _ _ _ _ (fun hk => hmem.1 hk.symm)]
    exact hget

/-- **C3.** The commitment hash of a recommendation is the keccak256 hash of
exactly its action, confidence and timestamp, so recommendations agreeing on
those three fields hash equally whatever their other fields; registering a
recommendation and then verifying the returned hash yields `valid = true`
together with that recommendation (its `commitmentHash` field now set to the
hash, as the source mutates it in place); and verifying a hash that no
registration ever produced yields `valid = false` with no recommendation. -/
theorem commitment_hash_spec :
    (∀ (keccak : List UInt8 → String) (r₁ r₂ : AIRecommendation),
      r₁.action = r₂.action → r₁.confidence = r₂.confidence →
      r₁.timestamp = r₂.timestamp →
      generateCommitmentHash keccak r₁ = generateCommitmentHash keccak r₂) ∧
    (∀ (keccak : List UInt8 → String) (reg : CommitmentRegistry)
      (rec : AIRecommendation),
      verifyCommitment keccak (registerCommitment keccak rec reg).2.2
          (registerCommitment keccak rec reg).1 =
        { valid := true
          recommendation := some
            { rec with commitmentHash := some (registerCommitment keccak rec reg).1 } }) ∧
    (∀ (keccak : List UInt8 → String) (recs : List AIRecommendation) (h : String),
      h ∉ recs.map (generateCommitmentHash keccak) →
      verifyCommitment keccak (registerAll keccak recs) h =
        { valid := false, recommendation := none }) := by
  refine ⟨fun keccak r₁ r₂ ha hc ht => ?_, fun keccak reg rec => ?_,
    fun keccak recs h hmem => ?_⟩
  · unfold generateCommitmentHash encodePackedRec
    rw [ha, hc, ht]
  · unfold verifyCommitment registerCommitment
    dsimp only
    rw [CommitmentRegistry.get_set_self]
    have hsame : generateCommitmentHash keccak
        { rec with commitmentHash := some (generateCommitmentHash keccak rec) } =
        generateCommitmentHash keccak rec := rfl
    simp [hsame]
  · unfold verifyCommitment registerAll
    rw [registerAll_get_none keccak recs [] (by simp [CommitmentRegistry.get]) hmem]

/-- A concrete stand-in for the abstract keccak256 parameter. -/
def keccakEx (bytes : List UInt8) : String :=
  match bytes with
  | _ => "0xhash"

/-- Witness for C3: hash equality across differing reasoning fields, a
register/verify round trip, and a never-registered hash, all at concrete
inputs. -/
theorem commitment_hash_spec_witness :
    generateCommitmentHash keccakEx recEx =
      generateCommitmentHash keccakEx { recEx with reasoning := "different text" } ∧
    verifyCommitment keccakEx (registerCommitment keccakEx recEx []).2.2
        (registerCommitment keccakEx recEx []).1 =
      { valid := true
        recommendation := some
          { recEx with commitmentHash := some (registerCommitment keccakEx recEx []).1 } } ∧
    verifyCommitment keccakEx (registerAll keccakEx [recEx]) "0xmissing" =
      { valid := false, recommendation := none } := by
  have h := commitment_hash_spec
  refine ⟨h.1 keccakEx _ _ rfl rfl rfl, h.2.1 keccakEx [] recEx,
    h.2.2 keccakEx [recEx] "0xmissing" ?_⟩
  simp only [List.map_cons, List.map_nil, List.mem_cons, List.not_mem_nil, or_false]
  show ¬"0xmissing" = keccakEx (encodePackedRec recEx.action recEx.confidence recEx.timestamp)
  unfold keccakEx
  decide

/-- **C6.** For every initialized keeper account, `getKeeperStatus` reports
the keeper as authorized for a vault exactly when the account's address
equals, under case-insensitive (lowercased) comparison, either the vault's
on-chain `keeper()` address or the vault's on-chain `owner()` address. -/
theorem keeper_authorization_spec :
    ∀ (reads : StatusReads) (acct : Account),
      ((getKeeperStatus reads (some acct)).isAuthorized.usdcVault = true ↔
        (toLowerCase reads.usdcKeeper = toLowerCase acct.address ∨
         toLowerCase reads.usdcOwner = toLowerCase acct.address)) ∧
      ((getKeeperStatus reads (some acct)).isAuthorized.wethVault = true ↔
        (toLowerCase reads.wethKeeper = toLowerCase acct.address ∨
         toLowerCase reads.wethOwner = toLowerCase acct.address)) := by
  intro reads acct
  constructor <;> simp [getKeeperStatus]

/-- Concrete status reads: the usdc vault's keeper address matches the
account below up to case; nothing matches on the weth vault. -/
def statusReadsEx : StatusReads :=
  { balance := 0, usdcKeeper := "0xABCDEF", wethKeeper := "0x111111",
    usdcOwner := "0x222222", wethOwner := "0x333333" }

/-- A concrete keeper account. -/
def acctEx : Account := { address := "0xabcdef" }

/-- Witness for C6: the case-insensitive match evaluated concretely. -/
theorem keeper_authorization_spec_witness :
    (getKeeperStatus statusReadsEx (some acctEx)).isAuthorized.usdcVault = true ∧
    (getKeeperStatus statusReadsEx (some acctEx)).isAuthorized.wethVault = false := by
  have h := keeper_authorization_spec statusReadsEx acctEx
  constructor
  · exact h.1.2 (Or.inl (by decide))
  · by_contra hc
    rcases h.2.1 (by simpa using hc) with h1 | h1 <;> revert h1 <;> decide

/-- **C9.** When the keeper was never initialized, `getKeeperStatus` returns
the fixed "Not initialized" status independently of any chain data, and both
executors return `success = false` with error `'Keeper not initialized'`
while performing no chain interaction at all (empty call trace, so nothing
is simulated or submitted). -/
theorem uninitialized_keeper_spec :
    ∀ (reads : StatusReads) (env : ChainEnv) (v : Vault) (now : ℕ),
      getKeeperStatus reads none =
        { address := "Not initialized", balance := "0",
          isAuthorized := { usdcVault := false, wethVault := false } } ∧
      executeRebalance env none v now =
        ({ success := false, txHash := none, error := some "Keeper not initialized",
           gasUsed := none, timestamp := now }, []) ∧
      executeHarvest env none v now =
        ({ success := false, txHash := none, error := some "Keeper not initialized",
           gasUsed := none, timestamp := now }, []) := by
  intro reads env v now
  exact ⟨rfl, rfl, rfl⟩

/-- A chain environment where every interaction succeeds and the transaction
confirms. -/
def chainEnvOkEx : ChainEnv :=
  { readNeedsRebalance := fun _ => .ok true
    simulateRebalance := fun _ => .ok ()
    writeRebalance := fun _ => .ok "0xtx"
    simulateHarvest := fun _ => .ok ()
    writeHarvest := fun _ => .ok "0xtx"
    waitForReceipt := fun _ => .ok { status := "success", gasUsed := 21000 } }

/-- Witness for C9: the uninitialized results evaluated concretely. -/
theorem uninitialized_keeper_spec_witness :
    getKeeperStatus statusReadsEx none =
      { address := "Not initialized", balance := "0",
        isAuthorized := { usdcVault := false, wethVault := false } } ∧
    (executeRebalance chainEnvOkEx none Vault.usdc 7).1.error =
      some "Keeper not initialized" ∧
    (executeHarvest chainEnvOkEx none Vault.weth 7).2 = [] := by
  have h := uninitialized_keeper_spec statusReadsEx chainEnvOkEx Vault.usdc 7
  have h2 := uninitialized_keeper_spec statusReadsEx chainEnvOkEx Vault.weth 7
  exact ⟨h.1, by rw [h.2.1], by rw [h2.2.2]⟩

/-- **C10.** For every vault path parameter other than the exact strings
`'usdc'` and `'weth'`, both keeper POST routes respond 400 with body
`{ error: 'Invalid vault' }`, do not reach the executors, and leave the
execution history unchanged. -/
theorem invalid_vault_route_spec :
    ∀ (env : ChainEnv) (acct : Option Account) (now : ℕ) (vaultParam : String)
      (hist : List ExecutionResult),
      vaultParam ≠ "usdc" → vaultParam ≠ "weth" →
      postKeeperRebalance env acct now vaultParam hist =
        ({ status := 400, body := .jsonError "Invalid vault" }, hist) ∧
      postKeeperHarvest env acct now vaultParam hist =
        ({ status := 400, body := .jsonError "Invalid vault" }, hist) := by
  intro env acct now vaultParam hist h1 h2
  constructor
  · unfold postKeeperRebalance
    rw [if_pos ⟨h1, h2⟩]
  · unfold postKeeperHarvest
    rw [if_pos ⟨h1, h2⟩]

/-- Witness for C10: the route rejection at the concrete parameter "dai". -/
theorem invalid_vault_route_spec_witness :
    postKeeperRebalance chainEnvOkEx (some acctEx) 7 "dai" [] =
      ({ status := 400, body := .jsonError "Invalid vault" }, []) ∧
    postKeeperHarvest chainEnvOkEx (some acctEx) 7 "dai" [] =
      ({ status := 400, body := .jsonError "Invalid vault" }, []) :=
  invalid_vault_route_spec chainEnvOkEx (some acctEx) 7 "dai" []
    (by decide) (by decide)

/-- **C5.** The keeper executors return an `ExecutionResult` for every
input (all errors are caught): each throwing step produces `success = false`
with an error message and stops the pipeline there; `executeRebalance` first
reads `needsRebalance` and, when it is `false`, returns `success = false`
with error `'Rebalance not needed'` without simulating or submitting; when
the guard passes, both executors simulate, then submit, then wait for the
receipt, and `success = true` exactly when the receipt status is
`'success'`. -/
theorem keeper_executor_spec :
    ∀ (env : ChainEnv) (acct : Account) (v : Vault) (now : ℕ),
      (∀ e now', (caughtResult e now').success = false ∧
        (caughtResult e now').error ≠ none) ∧
      (env.readNeedsRebalance v = .ok false →
        executeRebalance env (some acct) v now =
          ({ success := false, txHash := none, error := some "Rebalance not needed",
             gasUsed := none, timestamp := now }, [.readNeeds v])) ∧
      (∀ e, env.readNeedsRebalance v = .error e →
        executeRebalance env (some acct) v now =
          (caughtResult e now, [.readNeeds v])) ∧
      (∀ e, env.readNeedsRebalance v = .ok true → env.simulateRebalance v = .error e →
        executeRebalance env (some acct) v now =
          (caughtResult e now, [.readNeeds v, .simulate v "rebalance"])) ∧
      (∀ e, env.readNeedsRebalance v = .ok true → env.simulateRebalance v = .ok () →
        env.writeRebalance v = .error e →
        executeRebalance env (some acct) v now =
          (caughtResult e now,
            [.readNeeds v, .simulate v "rebalance", .submit v "rebalance"])) ∧
      (∀ e hash, env.readNeedsRebalance v = .ok true → env.simulateRebalance v = .ok () →
        env.writeRebalance v = .ok hash → env.waitForReceipt hash = .error e →
        executeRebalance env (some acct) v now =
          (caughtResult e now,
            [.readNeeds v, .simulate v "rebalance", .submit v "rebalance", .wait hash])) ∧
      (∀ hash receipt, env.readNeedsRebalance v = .ok true →
        env.simulateRebalance v = .ok () → env.writeRebalance v = .ok hash →
        env.waitForReceipt hash = .ok receipt →
        executeRebalance env (some acct) v now =
          ({ success := receipt.status == "success", txHash := some hash,
             error := none, gasUsed := some (toString receipt.gasUsed),
             timestamp := now },
            [.readNeeds v, .simulate v "rebalance", .submit v "rebalance", .wait hash])) ∧
      ((executeRebalance env (some acct) v now).1.success = true ↔
        ∃ hash receipt, env.readNeedsRebalance v = .ok true ∧
          env.simulateRebalance v = .ok () ∧ env.writeRebalance v = .ok hash ∧
          env.waitForReceipt hash = .ok receipt ∧ receipt.status = "success") ∧
      (∀ e, env.simulateHarvest v = .error e →
        executeHarvest env (some acct) v now =
          (caughtResult e now, [.simulate v "harvest"])) ∧
      (∀ e, env.simulateHarvest v = .ok () → env.writeHarvest v = .error e →
        executeHarvest env (some acct) v now =
          (caughtResult e now, [.simulate v "harvest", .submit v "harvest"])) ∧
      (∀ e hash, env.simulateHarvest v = .ok () → env.writeHarvest v = .ok hash →
        env.waitForReceipt hash = .error e →
        executeHarvest env (some acct) v now =
          (caughtResult e now,
            [.simulate v "harvest", .submit v "harvest", .wait hash])) ∧
      (∀ hash receipt, env.simulateHarvest v = .ok () → env.writeHarvest v = .ok hash →
        env.waitForReceipt hash = .ok receipt →
        executeHarvest env (some acct) v now =
          ({ success := receipt.status == "success", txHash := some hash,
             error := none, gasUsed := some (toString receipt.gasUsed),
             timestamp := now },
            [.simulate v "harvest", .submit v "harvest", .wait hash])) ∧
      ((executeHarvest env (some acct) v now).1.success = true ↔
        ∃ hash receipt, env.simulateHarvest v = .ok () ∧
          env.writeHarvest v = .ok hash ∧ env.waitForReceipt hash = .ok receipt ∧
          receipt.status = "success") := by
  intro env acct v now
  refine ⟨fun e now' => ⟨rfl, by simp [caughtResult]⟩,
    fun h1 => by simp [executeRebalance, h1],
    fun e h1 => by simp [executeRebalance, h1],
    fun e h1 h2 => by simp [executeRebalance, h1, h2],
    fun e h1 h2 h3 => by simp [executeRebalance, h1, h2, h3],
    fun e hash h1 h2 h3 h4 => by simp [executeRebalance, h1, h2, h3, h4],
    fun hash receipt h1 h2 h3 h4 => by simp [executeRebalance, h1, h2, h3, h4],
    ?_,
    fun e h1 => by simp [executeHarvest, h1],
    fun e h1 h2 => by simp [executeHarvest, h1, h2],
    fun e hash h1 h2 h3 => by simp [executeHarvest, h1, h2, h3],
    fun hash receipt h1 h2 h3 => by simp [executeHarvest, h1, h2, h3],
    ?_⟩
  · constructor
    · intro hs
      cases h1 : env.readNeedsRebalance v with
      | error e => simp [executeRebalance, h1, caughtResult] at hs
      | ok b =>
        cases b with
        | false => simp [executeRebalance, h1] at hs
        | true =>
          cases h2 : env.simulateRebalance v with
          | error e => simp [executeRebalance, h1, h2, caughtResult] at hs
          | ok u =>
            cases h3 : env.writeRebalance v with
            | error e => simp [executeRebalance, h1, h2, h3, caughtResult] at hs
            | ok hash =>
              cases h4 : env.waitForReceipt hash with
              | error e => simp [executeRebalance, h1, h2, h3, h4, caughtResult] at hs
              | ok receipt =>
                refine ⟨hash, receipt, rfl, rfl, rfl, h4, ?_⟩
                simpa [executeRebalance, h1, h2, h3, h4] using hs
    · rintro ⟨hash, receipt, h1, h2, h3, h4, h5⟩
      simp [executeRebalance, h1, h2, h3, h4, h5]
  · constructor
    · intro hs
      cases h2 : env.simulateHarvest v with
      | error e => simp [executeHarvest, h2, caughtResult] at hs
      | ok u =>
        cases h3 : env.writeHarvest v with
        | error e => simp [executeHarvest, h2, h3, caughtResult] at hs
        | ok hash =>
          cases h4 : env.waitForReceipt hash with
          | error e => simp [executeHarvest, h2, h3, h4, caughtResult] at hs
          | ok receipt =>
            refine ⟨hash, receipt, rfl, rfl, h4, ?_⟩
            simpa [executeHarvest, h2, h3, h4] using hs
    · rintro ⟨hash, receipt, h2, h3, h4, h5⟩
      simp [executeHarvest, h2, h3, h4, h5]

/-- A chain environment whose `needsRebalance` read answers `false`. -/
def chainEnvNoNeedEx : ChainEnv :=
  { chainEnvOkEx with readNeedsRebalance := fun _ => .ok false }

/-- Witness for C5: the guard, the happy path and the success
characterization evaluated on concrete environments. -/
theorem keeper_executor_spec_witness :
    executeRebalance chainEnvNoNeedEx (some acctEx) Vault.usdc 7 =
      ({ success := false, txHash := none, error := some "Rebalance not needed",
         gasUsed := none, timestamp := 7 }, [.readNeeds Vault.usdc]) ∧
    executeRebalance chainEnvOkEx (some acctEx) Vault.usdc 7 =
      ({ success := true, txHash := some "0xtx", error := none,
         gasUsed := some "21000", timestamp := 7 },
        [.readNeeds Vault.usdc, .simulate Vault.usdc "rebalance",
         .submit Vault.usdc "rebalance", .wait "0xtx"]) ∧
    (executeHarvest chainEnvOkEx (some acctEx) Vault.weth 7).1.success = true := by
  have h1 := keeper_executor_spec chainEnvNoNeedEx acctEx Vault.usdc 7
  have h2 := keeper_executor_spec chainEnvOkEx acctEx Vault.usdc 7
  have h3 := keeper_executor_spec chainEnvOkEx acctEx Vault.weth 7
  refine ⟨h1.2.1 rfl, ?_, ?_⟩
  · have := h2.2.2.2.2.2.2.1 "0xtx" { status := "success", gasUsed := 21000 }
      rfl rfl rfl rfl
    simpa using this
  · exact h3.2.2.2.2.2.2.2.2.2.2.2.2.mpr
      ⟨"0xtx", { status := "success", gasUsed := 21000 }, rfl, rfl, rfl, rfl⟩

/-- **C4.** Whenever the LLM call throws, returns a first content block that
is not text, or returns text that does not parse as JSON,
`getAIRecommendation` returns the static rule-based fallback, whose action
is `'REBALANCE'` exactly when the usdc vault's or the weth vault's
`needsRebalance` flag is set and `'HOLD'` otherwise, with confidence
exactly 70. -/
theorem fallback_recommendation_spec :
    ∀ (llm : LLMResult) (parse : String → Option ParsedRec)
      (keccak : List UInt8 → String) (now : ℕ) (data : ProtocolData)
      (hist : List ApyEntry) (reg : CommitmentRegistry),
      (llm = .threw ∨ (∃ bt text, llm = .response bt text ∧ bt ≠ "text") ∨
        (∃ text, llm = .response "text" text ∧ parse text = none)) →
      (getAIRecommendation llm parse keccak now data hist reg).1 =
        getFallbackRecommendation now data ∧
      (getFallbackRecommendation now data).action =
        (if data.vaults.usdc.needsRebalance || data.vaults.weth.needsRebalance
          then "REBALANCE" else "HOLD") ∧
      (getFallbackRecommendation now data).confidence = 70 := by
  intro llm parse keccak now data hist reg hfail
  refine ⟨?_, rfl, rfl⟩
  rcases hfail with h | ⟨bt, text, h, hbt⟩ | ⟨text, h, hparse⟩
  · rw [h]
    rfl
  · rw [h]
    unfold getAIRecommendation
    dsimp only
    rw [if_pos hbt]
  · rw [h]
    unfold getAIRecommendation
    dsimp only
    rw [if_neg (by simp), hparse]

/-- Witness for C4: all three failure modes on the concrete protocol data
(whose usdc vault needs a rebalance, so the fallback recommends REBALANCE
with confidence 70). -/
theorem fallback_recommendation_spec_witness :
    (getAIRecommendation .threw (fun _ => none) keccakEx 9 protocolDataEx [] []).1 =
      getFallbackRecommendation 9 protocolDataEx ∧
    (getAIRecommendation (.response "tool_use" "x") (fun _ => none) keccakEx 9
        protocolDataEx [] []).1 = getFallbackRecommendation 9 protocolDataEx ∧
    (getAIRecommendation (.response "text" "not json") (fun _ => none) keccakEx 9
        protocolDataEx [] []).1 = getFallbackRecommendation 9 protocolDataEx ∧
    (getFallbackRecommendation 9 protocolDataEx).action = "REBALANCE" ∧
    (getFallbackRecommendation 9 protocolDataEx).confidence = 70 := by
  have h1 := fallback_recommendation_spec .threw (fun _ => none) keccakEx 9
    protocolDataEx [] [] (Or.inl rfl)
  have h2 := fallback_recommendation_spec (.response "tool_use" "x")
    (fun _ => none) keccakEx 9 protocolDataEx [] []
    (Or.inr (Or.inl ⟨"tool_use", "x", rfl, by decide⟩))
  have h3 := fallback_recommendation_spec (.response "text" "not json")
    (fun _ => none) keccakEx 9 protocolDataEx [] []
    (Or.inr (Or.inr ⟨"not json", rfl, rfl⟩))
  refine ⟨h1.1, h2.1, h3.1, ?_, h1.2.2⟩
  rw [h1.2.1]
  rfl

/-- **C1.** In a scheduled cron tick, a rebalance for a vault is submitted
(`executeRebalance` called) only when the tick was not re-entered, the data
fetch and the recommendation succeeded, the recommendation's action is
`'REBALANCE'` with confidence at least 80, the keeper status fetch
succeeded, the vault's `needsRebalance` flag in the freshly fetched data is
set, and the status reports the keeper authorized for that vault; if any of
these fails for a vault, no execution for that vault occurs in the tick. -/
theorem cron_rebalance_submission_conditions :
    ∀ (env : CronEnv) (s : AgentState) (v : Vault),
      v ∈ (analysisCronTick env s).2 →
      s.isRunning = false ∧
      ∃ data rec status,
        env.fetchProtocolData = .ok data ∧
        env.getAIRecommendation data = .ok rec ∧
        rec.action = "REBALANCE" ∧ 80 ≤ rec.confidence ∧
        env.getKeeperStatus = .ok status ∧
        (data.vaultData v).needsRebalance = true ∧
        status.authorizedFor v = true := by
  intro env s v hmem
  unfold analysisCronTick at hmem
  by_cases hrun : s.isRunning = true
  · rw [if_pos hrun] at hmem
    simp at hmem
  · rw [if_neg hrun] at hmem
    dsimp only at hmem
    refine ⟨by simpa using hrun, ?_⟩
    unfold analysisTryBlock at hmem
    cases hfetch : env.fetchProtocolData with
    | error e =>
      rw [hfetch] at hmem
      simp at hmem
    | ok data =>
      rw [hfetch] at hmem
      dsimp only at hmem
      cases hrec : env.getAIRecommendation data with
      | error e =>
        rw [hrec] at hmem
        simp at hmem
      | ok rec =>
        rw [hrec] at hmem
        dsimp only at hmem
        by_cases hcond : rec.action = "REBALANCE" ∧ 80 ≤ rec.confidence
        · rw [if_pos hcond] at hmem
          cases hstatus : env.getKeeperStatus with
          | error e =>
            rw [hstatus] at hmem
            simp at hmem
          | ok status =>
            rw [hstatus] at hmem
            dsimp only at hmem
            refine ⟨data, rec, status, rfl, hrec, hcond.1, hcond.2, rfl, ?_⟩
            by_cases husdc : (data.vaults.usdc.needsRebalance &&
                status.isAuthorized.usdcVault) = true
            · by_cases hweth : (data.vaults.weth.needsRebalance &&
                  status.isAuthorized.wethVault) = true
              · rw [if_pos husdc, if_pos hweth] at hmem
                rw [Bool.and_eq_true] at husdc hweth
                simp at hmem
                rcases hmem with h | h <;> subst h
                · exact ⟨husdc.1, husdc.2⟩
                · exact ⟨hweth.1, hweth.2⟩
              · rw [if_pos husdc, if_neg hweth] at hmem
                rw [Bool.and_eq_true] at husdc
                simp at hmem
                subst hmem
                exact ⟨husdc.1, husdc.2⟩
            · by_cases hweth : (data.vaults.weth.needsRebalance &&
                  status.isAuthorized.wethVault) = true
              · rw [if_neg husdc, if_pos hweth] at hmem
                rw [Bool.and_eq_true] at hweth
                simp at hmem
                subst hmem
                exact ⟨hweth.1, hweth.2⟩
              · rw [if_neg husdc, if_neg hweth] at hmem
                simp at hmem
        · rw [if_neg hcond] at hmem
          simp at hmem

/-- Witness for C1: on the concrete environment (high-confidence REBALANCE
recommendation, usdc vault drifted and authorized) the tick submits the usdc
rebalance, and the submission satisfies every condition. -/
theorem cron_rebalance_submission_conditions_witness :
    agentState0.isRunning = false ∧
    ∃ data rec status,
      cronEnvEx.fetchProtocolData = .ok data ∧
      cronEnvEx.getAIRecommendation data = .ok rec ∧
      rec.action = "REBALANCE" ∧ 80 ≤ rec.confidence ∧
      cronEnvEx.getKeeperStatus = .ok status ∧
      (data.vaultData Vault.usdc).needsRebalance = true ∧
      status.authorizedFor Vault.usdc = true :=
  cron_rebalance_submission_conditions cronEnvEx agentState0 Vault.usdc (by decide)

/-- **C2.** The cron tick is guarded by `isRunning`: a tick beginning while
`isRunning` is set returns immediately with the state unchanged and no
submission (no fetch, recommendation, history update or transaction is
observable); otherwise the tick runs and — whatever the collaborators do,
including throwing at any step — the `finally` clears the flag, so after
every completed tick `isRunning` is `false`. -/
theorem cron_reentrancy_guard :
    ∀ (env : CronEnv) (s : AgentState),
      (s.isRunning = true → analysisCronTick env s = (s, [])) ∧
      (s.isRunning = false → (analysisCronTick env s).1.isRunning = false) := by
  intro env s
  constructor
  · intro h
    unfold analysisCronTick
    rw [if_pos h]
  · intro h
    unfold analysisCronTick
    rw [if_neg (by simp [h])]

/-- Witness for C2: a re-entered tick is the identity on the concrete state,
and a normal tick on the concrete environment ends with the flag cleared. -/
theorem cron_reentrancy_guard_witness :
    analysisCronTick cronEnvEx { agentState0 with isRunning := true } =
      ({ agentState0 with isRunning := true }, []) ∧
    (analysisCronTick cronEnvEx agentState0).1.isRunning = false := by
  have h1 := cron_reentrancy_guard cronEnvEx { agentState0 with isRunning := true }
  have h2 := cron_reentrancy_guard cronEnvEx agentState0
  exact ⟨h1.1 rfl, h2.2 rfl⟩

end MBrain
